import Mathlib

/-!
Shallow embedding of the exam-auto-quiz extraction pipeline and exam scoring.

Sources embedded:
* supabase/functions/extract-questions/index.ts (two-stage variant): the serve
  handler with its chunked base64 encoding, MIME derivation, OCR strategy
  selection with fallback, structuring-call status classification, code-fence
  stripping and JSON-array validation.
* the Upload page's processFile (soft "no questions found" handling).
* the Exam page's handleSubmit (scoring).

Modelling conventions: byte sequences are lists of Nat (each byte < 256 in
practice; the encoding functions are total), JS strings are lists of Char or
Lean String, JSON.parse is an external runtime primitive so a parse outcome is
passed in as an oracle value (Option Json), and network calls are oracle
results recorded as events so that call counts and ordering can be stated.
JSON numbers are modelled as Int: no claim depends on float values.
-/

namespace ExamAutoQuiz

/-- JSON values, as produced by the runtime JSON parser. -/
inductive Json where
  | null : Json
  | bool (b : Bool) : Json
  | num (n : Int) : Json
  | str (s : String) : Json
  | arr (xs : List Json) : Json
  | obj (fields : List (String × Json)) : Json

/-- Property access `j.k` on a JSON value: defined only on objects. -/
def getField (j : Json) (k : String) : Option Json :=
  match j with
  | Json.obj fields => fields.lookup k
  | _ => none

/-- Whether a JSON value is an array, mirroring `Array.isArray`. -/
def Json.isArr : Json → Bool
  | Json.arr _ => true
  | _ => false

/-- An HTTP response as built by the edge function: a status and a JSON body. -/
structure HttpResponse where
  status : Nat
  body : Json

/-- `JSON.stringify({ error: msg })` bodies used by every failure branch. -/
def errorBody (msg : String) : Json :=
  Json.obj [("error", Json.str msg)]

/-! ## Safe base64 encoder (index.ts lines 149-156)

The handler builds a binary string from the bytes in chunks of 8192 via
`String.fromCharCode(...chunk)` and concatenation, then calls `btoa` on the
result.  `String.fromCharCode` maps each byte to the character with that code,
so the binary string is the byte list itself viewed as char codes; we keep it
as `List Nat`. -/

/-- The base64 alphabet used by `btoa`. -/
def b64Alphabet : List Char :=
  "ABCDEFGHIJKLMNOPQRSTUVWXYZabcdefghijklmnopqrstuvwxyz0123456789+/".toList

/-- Character for a 6-bit group (the default is unreachable for inputs < 64). -/
def b64Char (n : Nat) : Char := b64Alphabet.getD n '='

/-- `btoa`: base64 of a sequence of char codes, with `=` padding. -/
def btoa : List Nat → List Char
  | [] => []
  | [a] => [b64Char (a / 4), b64Char (a % 4 * 16), '=', '=']
  | [a, b] => [b64Char (a / 4), b64Char (a % 4 * 16 + b / 16), b64Char (b % 16 * 4), '=']
  | a :: b :: c :: rest =>
      b64Char (a / 4) :: b64Char (a % 4 * 16 + b / 16) ::
      b64Char (b % 16 * 4 + c / 64) :: b64Char (c % 64) :: btoa rest

/-- The chunked binary-string build:
`for (let i = 0; i < len; i += chunkSize) binaryString += fromCharCode(...chunk)`.
For `chunkSize = 0` the JS loop would not terminate; the model returns `[]`
there (every statement about this function assumes `1 ≤ chunkSize`). -/
def chunkedBinary (chunkSize : Nat) (bytes : List Nat) : List Nat :=
  if bytes = [] ∨ chunkSize = 0 then []
  else bytes.take chunkSize ++ chunkedBinary chunkSize (bytes.drop chunkSize)
termination_by bytes.length
decreasing_by
  rename_i h
  rw [not_or] at h
  have hlen : 0 < bytes.length := List.length_pos.mpr h.1
  simp only [List.length_drop]
  omega

/-- The whole chunked encoding: build the binary string in chunks, then `btoa`. -/
def chunkedBtoa (chunkSize : Nat) (bytes : List Nat) : List Char :=
  btoa (chunkedBinary chunkSize bytes)

/-! ## MIME derivation (index.ts lines 158-163)

`filePath.toLowerCase().endsWith('.pdf') ? 'application/pdf' : ...`.
Storage keys are ASCII in practice; lowercasing is modelled on ASCII letters. -/

/-- ASCII lowercasing of one character, as `toLowerCase` acts on ASCII. -/
def asciiLower (c : Char) : Char :=
  if 'A' ≤ c ∧ c ≤ 'Z' then Char.ofNat (c.toNat + 32) else c

/-- MIME kind derived from the storage key, mirroring the conditional chain
(the source lowercases the key anew in each test). -/
def mimeType (key : List Char) : String :=
  if ".pdf".toList <:+ key.map asciiLower then "application/pdf"
  else if ".jpg".toList <:+ key.map asciiLower ∨ ".jpeg".toList <:+ key.map asciiLower then
    "image/jpeg"
  else "image/png"

/-- The `isPdf` test of line 174: `filePath.toLowerCase().endsWith('.pdf')`. -/
def isPdfKey (key : List Char) : Bool :=
  decide (".pdf".toList <:+ key.map asciiLower)

/-! ## Code-fence stripping (index.ts line 264)

`questionsText.replace(/```json\n?/g, '').replace(/```\n?/g, '').trim()`.
Both regexes are global: they remove every occurrence anywhere in the string,
each with one optional following newline, scanning left to right. -/

/-- Boolean prefix test on char lists. -/
def listStartsWith : List Char → List Char → Bool
  | [], _ => true
  | _ :: _, [] => false
  | p :: ps, c :: cs => p == c && listStartsWith ps cs

/-- Drop one leading newline if present (the `\n?` part of the regexes). -/
def dropNl : List Char → List Char
  | '\n' :: cs => cs
  | cs => cs

theorem dropNl_length_le (l : List Char) : (dropNl l).length ≤ l.length := by
  unfold dropNl
  split <;> simp

/-- `.replace(/```json\n?/g, '')`: remove every occurrence of the 7-character
marker with an optional following newline, scanning left to right. -/
def stripJsonFences (l : List Char) : List Char :=
  match l with
  | [] => []
  | c :: cs =>
    if listStartsWith "```json".toList (c :: cs) then
      stripJsonFences (dropNl ((c :: cs).drop 7))
    else
      c :: stripJsonFences cs
termination_by l.length
decreasing_by
  · have h1 := dropNl_length_le ((c :: cs).drop 7)
    simp only [List.length_drop, List.length_cons] at *
    omega
  · simp

/-- `.replace(/```\n?/g, '')`: remove every occurrence of the 3-character
marker with an optional following newline, scanning left to right. -/
def stripFence (l : List Char) : List Char :=
  match l with
  | [] => []
  | c :: cs =>
    if listStartsWith "```".toList (c :: cs) then
      stripFence (dropNl ((c :: cs).drop 3))
    else
      c :: stripFence cs
termination_by l.length
decreasing_by
  · have h1 := dropNl_length_le ((c :: cs).drop 3)
    simp only [List.length_drop, List.length_cons] at *
    omega
  · simp

/-- Whitespace for `String.prototype.trim` (the code points that occur in the
claims; full JS trim also covers further Unicode space characters). -/
def isJsWs (c : Char) : Bool :=
  c == ' ' || c == '\n' || c == '\t' || c == '\r' || c == '\x0b' || c == '\x0c'

/-- Remove trailing whitespace. -/
def trimRight (l : List Char) : List Char :=
  (l.reverse.dropWhile isJsWs).reverse

/-- `.trim()`: remove leading and trailing whitespace. -/
def jsTrim (l : List Char) : List Char :=
  (trimRight l).dropWhile isJsWs

/-- `cleanedText`: both global replacements followed by `.trim()`. -/
def cleanedText (l : List Char) : List Char :=
  jsTrim (stripFence (stripJsonFences l))

/-- The backtick character (named to keep source text readable). -/
def bq : Char := Char.ofNat 96

/-- Scanner deciding that no three consecutive backticks occur in a string:
no suffix starts with the fence marker.  Used to state which payloads the
fence stripping leaves intact. -/
def fenceFree : List Char → Bool
  | [] => true
  | c :: cs => !(listStartsWith "```".toList (c :: cs)) && fenceFree cs

/-! ## Structuring-call status classification (index.ts lines 232-254) -/

/-- `aiResponse.ok` of the fetch API: status in 200..299. -/
def fetchOk (status : Nat) : Bool :=
  decide (200 ≤ status ∧ status ≤ 299)

/-- The early returns guarded by `!aiResponse.ok`: `none` means the response
was ok and the handler proceeds; `some r` is the returned error response. -/
def aiFailureResponse (status : Nat) : Option HttpResponse :=
  if fetchOk status then none
  else if status = 429 then
    some ⟨429, errorBody "Rate limit exceeded. Please try again later."⟩
  else if status = 402 then
    some ⟨402, errorBody "AI credits depleted. Please add funds to continue."⟩
  else
    some ⟨500, errorBody "AI processing failed"⟩

/-! ## Parse outcome handling (index.ts lines 261-286)

`JSON.parse` is a runtime primitive; its outcome on the cleaned text is the
argument: `none` is the catch branch of the try, `some v` the parsed value. -/

/-- From the parse outcome of the cleaned model output to the HTTP response:
parse failure and non-array values give 500; every array is returned as-is in
a 200 `{ questions }` body (the `Response` constructor's default status). -/
def structureResponse (parsed : Option Json) : HttpResponse :=
  match parsed with
  | none => ⟨500, errorBody "Failed to parse extracted questions"⟩
  | some v =>
    match v with
    | Json.arr qs => ⟨200, Json.obj [("questions", Json.arr qs)]⟩
    | _ => ⟨500, errorBody "Invalid questions format"⟩

/-! ## OCR stage with fallback (index.ts lines 174-190) -/

/-- Outbound calls made by one invocation, in order. -/
inductive Event where
  | download : Event
  | filestackOcr : Event
  | geminiOcr : Event
  | structureCall : Event
deriving DecidableEq

/-- The OCR step: `if (isPdf && ocrApiKey) { try filestack catch { isPdf &&
(gemini) } } else { gemini }`.  Strategy outcomes are oracle values; the
returned event list records which providers were called, in order.  In the
catch branch the source re-tests `isPdf` (always true there); when that inner
guard were false the text would stay the initial `''`. -/
def ocrStage (isPdf keyPresent : Bool) (fs gm : Except String String) :
    Except String String × List Event :=
  if isPdf && keyPresent then
    match fs with
    | Except.ok t => (Except.ok t, [Event.filestackOcr])
    | Except.error _ =>
        if isPdf then (gm, [Event.filestackOcr, Event.geminiOcr])
        else (Except.ok "", [Event.filestackOcr])
  else (gm, [Event.geminiOcr])

/-! ## The serve handler (index.ts lines 109-297, two-stage variant) -/

/-- Oracle inputs of one invocation: the parsed request field, the environment
configuration, and the outcome each external call would produce. -/
structure Env where
  filePath : Option String
  downloadResult : Except String (List Nat)
  lovableKey : Option String
  ocrKey : Option String
  filestackResult : Except String String
  geminiOcrResult : Except String String
  aiStatus : Nat
  aiContent : List Char
  jsonParse : List Char → Option Json

/-- The serve handler body: guards, download, encoding, OCR stage, structuring
call, classification, fence stripping, parse and array check.  Returns the
response together with the ordered list of outbound calls made. -/
def serveHandler (env : Env) : HttpResponse × List Event :=
  match env.filePath with
  | none => (⟨400, errorBody "File path is required"⟩, [])
  | some fp =>
    if fp = "" then (⟨400, errorBody "File path is required"⟩, [])
    else
      match env.downloadResult with
      | Except.error _ => (⟨500, errorBody "Failed to download file"⟩, [Event.download])
      | Except.ok bytes =>
        let _base64 := chunkedBtoa 8192 bytes
        let _mime := mimeType fp.toList
        match env.lovableKey with
        | none => (⟨500, errorBody "LOVABLE_API_KEY not configured"⟩, [Event.download])
        | some _ =>
          let pdf := isPdfKey fp.toList
          let ocr := ocrStage pdf env.ocrKey.isSome env.filestackResult env.geminiOcrResult
          match ocr.1 with
          | Except.error msg => (⟨500, errorBody msg⟩, Event.download :: ocr.2)
          | Except.ok _text =>
            match aiFailureResponse env.aiStatus with
            | some r => (r, Event.download :: ocr.2 ++ [Event.structureCall])
            | none =>
                (structureResponse (env.jsonParse (cleanedText env.aiContent)),
                 Event.download :: ocr.2 ++ [Event.structureCall])

/-! ## Upload flow (Upload page, processFile) -/

/-- What the Upload page does after the function call returns. -/
inductive UploadOutcome where
  | errorToast (msg : String) : UploadOutcome
  | noQuestionsToast : UploadOutcome
  | startExam (questions : Json) : UploadOutcome

/-- JS falsiness of a JSON value (`!data.questions`). -/
def jsFalsy : Json → Bool
  | Json.null => true
  | Json.bool false => true
  | Json.num 0 => true
  | Json.str "" => true
  | _ => false

/-- `data.questions.length === 0`: only arrays and strings have `length`. -/
def jsLengthIsZero : Json → Bool
  | Json.arr [] => true
  | Json.str "" => true
  | _ => false

/-- `if (functionError) throw; if (!data.questions || data.questions.length
=== 0) toast "No questions found" else navigate('/exam', ...)`.  A missing
`questions` field is `undefined`, which is falsy. -/
def processFileOutcome (functionError : Option String) (data : Json) : UploadOutcome :=
  match functionError with
  | some m => UploadOutcome.errorToast m
  | none =>
    match getField data "questions" with
    | none => UploadOutcome.noQuestionsToast
    | some q =>
        if jsFalsy q || jsLengthIsZero q then UploadOutcome.noQuestionsToast
        else UploadOutcome.startExam q

/-! ## Exam scoring (Exam.tsx, handleSubmit) -/

/-- The Question interface of the Exam page. -/
structure Question where
  question : String
  options : List String
  correctAnswer : String
deriving DecidableEq

instance : Inhabited Question := ⟨⟨"", [], ""⟩⟩

/-- One element of the results array built by handleSubmit. -/
structure ResultItem where
  question : String
  options : List String
  userAnswer : String
  correctAnswer : String
  isCorrect : Bool
deriving DecidableEq

instance : Inhabited ResultItem := ⟨⟨"", [], "", "", false⟩⟩

/-- `answers[idx] || ''`: a missing entry is `undefined` (falsy), a stored
empty string is falsy too; both yield `''`. -/
def recordedAnswer (answers : Nat → Option String) (i : Nat) : String :=
  match answers i with
  | none => ""
  | some s => if s = "" then "" else s

/-- `questions.map((q, idx) => ...)` starting at index `i`. -/
def examResults (answers : Nat → Option String) : Nat → List Question → List ResultItem
  | _, [] => []
  | i, q :: qs =>
      { question := q.question
        options := q.options
        userAnswer := recordedAnswer answers i
        correctAnswer := q.correctAnswer
        isCorrect := recordedAnswer answers i == q.correctAnswer } ::
      examResults answers (i + 1) qs

/-- The state handed to the results page. -/
structure SubmitOutcome where
  results : List ResultItem
  score : Nat
  total : Nat
deriving DecidableEq

/-- handleSubmit: build results, count correct ones, total = question count. -/
def handleSubmit (questions : List Question) (answers : Nat → Option String) :
    SubmitOutcome :=
  let results := examResults answers 0 questions
  { results := results
    score := results.countP (fun r => r.isCorrect)
    total := questions.length }

/-! ## Question-record invariant (spec, data model)

The invariant the spec states for Question records, used only to state the
validation claims: question is a string, options is a sequence of exactly 4
strings, correctAnswer is one of the four letters A-D. -/

/-- Whether a JSON value is a string. -/
def Json.isStr : Json → Bool
  | Json.str _ => true
  | _ => false

/-- The Question-record invariant of the spec, as a check on a JSON element. -/
def validQuestionB (j : Json) : Bool :=
  match getField j "question", getField j "options", getField j "correctAnswer" with
  | some (Json.str _), some (Json.arr os), some (Json.str ca) =>
      os.length == 4 && os.all Json.isStr &&
      (ca == "A" || ca == "B" || ca == "C" || ca == "D")
  | _, _, _ => false

/-- A structuring-model output element violating the invariant (empty options,
answer letter Z). -/
def badQuestion : Json :=
  Json.obj [("question", Json.str "q"), ("options", Json.arr []),
            ("correctAnswer", Json.str "Z")]

/-! ## Helper lemmas -/

theorem chunkedBinary_eq_self (chunkSize : Nat) (hc : 1 ≤ chunkSize) (bytes : List Nat) :
    chunkedBinary chunkSize bytes = bytes := by
  rw [chunkedBinary]
  by_cases hb : bytes = []
  · simp [hb]
  · rw [if_neg (by push_neg; exact ⟨hb, by omega⟩)]
    rw [chunkedBinary_eq_self chunkSize hc (bytes.drop chunkSize)]
    exact List.take_append_drop _ _
termination_by bytes.length
decreasing_by
  have hlen : 0 < bytes.length := List.length_pos.mpr hb
  simp only [List.length_drop]
  omega

theorem getField_errorBody (m : String) : getField (errorBody m) "questions" = none := rfl

/-! ## Claim theorems -/

/-- C1: for every byte sequence, encoding the binary string built in bounded
chunks (size 8192 in the source; any chunk size ≥ 1) and base64-encoding the
concatenation equals base64-encoding the whole byte sequence at once,
including the zero-length input. -/
theorem chunked_base64_eq_unchunked (chunkSize : Nat) (hc : 1 ≤ chunkSize)
    (bytes : List Nat) : chunkedBtoa chunkSize bytes = btoa bytes := by
  rw [chunkedBtoa, chunkedBinary_eq_self chunkSize hc]

theorem chunked_base64_eq_unchunked_witness :
    1 ≤ 8192 ∧ chunkedBtoa 8192 [77, 97, 110, 0, 255] = btoa [77, 97, 110, 0, 255] :=
  ⟨by decide, chunked_base64_eq_unchunked 8192 (by decide) [77, 97, 110, 0, 255]⟩

/-- C3: OCR strategy selection.  For a pdf key with the Filestack credential
configured, Filestack is attempted first; on any Filestack failure Gemini is
invoked exactly once and its outcome (whatever it is) becomes the stage
outcome; on Filestack success Gemini is never invoked.  For non-pdf documents,
and for pdf documents without the credential, Gemini is used directly with no
Filestack attempt. -/
theorem ocr_strategy_selection (e t : String) (fs gm : Except String String) :
    ocrStage true true (Except.error e) gm = (gm, [Event.filestackOcr, Event.geminiOcr]) ∧
    ocrStage true true (Except.ok t) gm = (Except.ok t, [Event.filestackOcr]) ∧
    (∀ k, ocrStage false k fs gm = (gm, [Event.geminiOcr])) ∧
    ocrStage true false fs gm = (gm, [Event.geminiOcr]) := by
  refine ⟨rfl, rfl, fun k => ?_, rfl⟩
  simp [ocrStage]

/-- C4: when the structuring output parses to the JSON array `[]`, the
response is a success with body `{questions: []}` and status 200, not an
error; it is distinguished from a parse failure (status 500), and the Upload
flow turns it into the soft "no questions found" toast rather than the error
toast. -/
theorem empty_array_success_soft :
    (structureResponse (some (Json.arr []))).status = 200 ∧
    (structureResponse (some (Json.arr []))).body = Json.obj [("questions", Json.arr [])] ∧
    (structureResponse none).status = 500 ∧
    processFileOutcome none (structureResponse (some (Json.arr []))).body =
      UploadOutcome.noQuestionsToast :=
  ⟨rfl, rfl, rfl, rfl⟩

/-- C5: a parse failure of the (fence-stripped) structuring output yields the
500 response with body error "Failed to parse extracted questions"; a value
that parses but is not an array yields the 500 response "Invalid questions
format"; in both cases the body carries no questions field. -/
theorem structuring_failures_classified (v : Json) (h : v.isArr = false) :
    structureResponse none = ⟨500, errorBody "Failed to parse extracted questions"⟩ ∧
    structureResponse (some v) = ⟨500, errorBody "Invalid questions format"⟩ ∧
    getField (structureResponse (some v)).body "questions" = none ∧
    getField (structureResponse none).body "questions" = none := by
  refine ⟨rfl, ?_, ?_, rfl⟩ <;>
    cases v <;> simp_all [structureResponse, Json.isArr, getField_errorBody]

theorem structuring_failures_classified_witness :
    Json.isArr (Json.obj []) = false ∧
    structureResponse (some (Json.obj [])) = ⟨500, errorBody "Invalid questions format"⟩ :=
  ⟨rfl, (structuring_failures_classified (Json.obj []) rfl).2.1⟩

/-- C6: classification of a non-2xx structuring-provider response: provider
status 429 maps to a 429 response, provider status 402 to a 402 response, any
other non-2xx status to a 500 response, each with a JSON error body carrying
no question data. -/
theorem upstream_failure_classification (status : Nat) (h : fetchOk status = false) :
    (status = 429 → aiFailureResponse status =
      some ⟨429, errorBody "Rate limit exceeded. Please try again later."⟩) ∧
    (status = 402 → aiFailureResponse status =
      some ⟨402, errorBody "AI credits depleted. Please add funds to continue."⟩) ∧
    (status ≠ 429 → status ≠ 402 → aiFailureResponse status =
      some ⟨500, errorBody "AI processing failed"⟩) ∧
    (∀ r, aiFailureResponse status = some r → getField r.body "questions" = none) := by
  refine ⟨?_, ?_, ?_, ?_⟩
  · rintro rfl
    rfl
  · rintro rfl
    rfl
  · intro h1 h2
    simp [aiFailureResponse, h, h1, h2]
  · intro r hr
    unfold aiFailureResponse at hr
    rw [h] at hr
    by_cases h1 : status = 429
    · rw [if_pos h1] at hr
      cases hr
      exact getField_errorBody _
    · rw [if_neg h1] at hr
      by_cases h2 : status = 402
      · rw [if_pos h2] at hr
        cases hr
        exact getField_errorBody _
      · rw [if_neg h2] at hr
        cases hr
        exact getField_errorBody _

theorem upstream_failure_classification_witness :
    fetchOk 503 = false ∧
    aiFailureResponse 503 = some ⟨500, errorBody "AI processing failed"⟩ :=
  ⟨by decide, (upstream_failure_classification 503 (by decide)).2.2.1 (by decide) (by decide)⟩

/-- C9: a request whose body lacks the filePath field or carries an empty
filePath gets the 400 response with body error "File path is required", and
no storage download and no provider call is made (the event list is empty). -/
theorem missing_file_path_rejected (env : Env)
    (h : env.filePath = none ∨ env.filePath = some "") :
    serveHandler env = (⟨400, errorBody "File path is required"⟩, []) := by
  rcases h with h | h <;> simp [serveHandler, h]

theorem missing_file_path_rejected_witness :
    serveHandler
      { filePath := none
        downloadResult := Except.ok []
        lovableKey := some "k"
        ocrKey := none
        filestackResult := Except.ok ""
        geminiOcrResult := Except.ok ""
        aiStatus := 200
        aiContent := []
        jsonParse := fun _ => none } =
      (⟨400, errorBody "File path is required"⟩, []) :=
  missing_file_path_rejected _ (Or.inl rfl)

theorem suffix_map_iff (f : Char → Char) (pat l : List Char) :
    pat <:+ l.map f ↔ ∃ p s, l = p ++ s ∧ s.map f = pat := by
  constructor
  · rintro ⟨t, ht⟩
    refine ⟨l.take t.length, l.drop t.length, (List.take_append_drop _ _).symm, ?_⟩
    rw [List.map_drop, ← ht, List.drop_left]
  · rintro ⟨p, s, rfl, hs⟩
    exact ⟨p.map f, by rw [List.map_append, hs]⟩

theorem suffix_eq_of_length_eq {s1 s2 l : List Char} (h1 : s1 <:+ l) (h2 : s2 <:+ l)
    (h : s1.length = s2.length) : s1 = s2 := by
  rw [List.suffix_iff_eq_drop.mp h1, List.suffix_iff_eq_drop.mp h2, h]

theorem not_pdf_of_jpg {l : List Char} (h : ".jpg".toList <:+ l) :
    ¬ ".pdf".toList <:+ l := fun hp =>
  absurd (suffix_eq_of_length_eq hp h (by decide)) (by decide)

theorem not_pdf_of_jpeg {l : List Char} (h : ".jpeg".toList <:+ l) :
    ¬ ".pdf".toList <:+ l := fun hp => by
  have hj : "jpeg".toList <:+ l :=
    List.IsSuffix.trans (show "jpeg".toList <:+ ".jpeg".toList from ⟨['.'], by decide⟩) h
  exact absurd (suffix_eq_of_length_eq hp hj (by decide)) (by decide)

/-- C8: MIME derivation is a pure case-insensitive function of the key's
extension: a key ending in .pdf in any letter case maps to application/pdf,
one ending in .jpg or .jpeg in any case to image/jpeg, and every other key
(including extensionless ones) to image/png.  "Ends in .pdf in some letter
case" is expressed as a decomposition whose ASCII-lowercased suffix is the
extension. -/
theorem mime_kind_from_extension (key : List Char) :
    ((∃ p s, key = p ++ s ∧ s.map asciiLower = ".pdf".toList) →
      mimeType key = "application/pdf") ∧
    ((∃ p s, key = p ++ s ∧
        (s.map asciiLower = ".jpg".toList ∨ s.map asciiLower = ".jpeg".toList)) →
      mimeType key = "image/jpeg") ∧
    ((¬ ∃ p s, key = p ++ s ∧
        (s.map asciiLower = ".pdf".toList ∨ s.map asciiLower = ".jpg".toList ∨
         s.map asciiLower = ".jpeg".toList)) →
      mimeType key = "image/png") := by
  refine ⟨?_, ?_, ?_⟩
  · rintro ⟨p, s, rfl, hs⟩
    have hp : ".pdf".toList <:+ (p ++ s).map asciiLower :=
      (suffix_map_iff _ _ _).mpr ⟨p, s, rfl, hs⟩
    simp only [mimeType, if_pos hp]
  · rintro ⟨p, s, rfl, hs⟩
    have hj : ".jpg".toList <:+ (p ++ s).map asciiLower ∨
        ".jpeg".toList <:+ (p ++ s).map asciiLower := by
      rcases hs with hs | hs
      · exact Or.inl ((suffix_map_iff _ _ _).mpr ⟨p, s, rfl, hs⟩)
      · exact Or.inr ((suffix_map_iff _ _ _).mpr ⟨p, s, rfl, hs⟩)
    have hnp : ¬ ".pdf".toList <:+ (p ++ s).map asciiLower := by
      rcases hj with hj | hj
      · exact not_pdf_of_jpg hj
      · exact not_pdf_of_jpeg hj
    simp only [mimeType, if_neg hnp, if_pos hj]
  · intro h
    have h1 : ¬ ".pdf".toList <:+ key.map asciiLower := fun hc => by
      obtain ⟨p, s, hps, hm⟩ := (suffix_map_iff _ _ _).mp hc
      exact h ⟨p, s, hps, Or.inl hm⟩
    have h2 : ¬ (".jpg".toList <:+ key.map asciiLower ∨
        ".jpeg".toList <:+ key.map asciiLower) := by
      rintro (hc | hc)
      · obtain ⟨p, s, hps, hm⟩ := (suffix_map_iff _ _ _).mp hc
        exact h ⟨p, s, hps, Or.inr (Or.inl hm)⟩
      · obtain ⟨p, s, hps, hm⟩ := (suffix_map_iff _ _ _).mp hc
        exact h ⟨p, s, hps, Or.inr (Or.inr hm)⟩
    simp only [mimeType, if_neg h1, if_neg h2]

theorem mime_kind_from_extension_witness :
    mimeType "Scan.PDF".toList = "application/pdf" ∧
    mimeType "a.JpEg".toList = "image/jpeg" ∧
    mimeType "notes.txt".toList = "image/png" :=
  ⟨(mime_kind_from_extension _).1 ⟨"Scan".toList, ".PDF".toList, by decide, by decide⟩,
   (mime_kind_from_extension _).2.1
     ⟨"a".toList, ".JpEg".toList, by decide, Or.inr (by decide)⟩,
   (mime_kind_from_extension _).2.2 (by
     rintro ⟨p, s, hps, hm | hm | hm⟩ <;>
       exact absurd ((suffix_map_iff asciiLower _ _).mpr ⟨p, s, hps, hm⟩) (by decide))⟩

theorem examResults_length (a : Nat → Option String) (n : Nat) (qs : List Question) :
    (examResults a n qs).length = qs.length := by
  induction qs generalizing n with
  | nil => rfl
  | cons q qs ih => simp [examResults, ih]

theorem examResults_getD (a : Nat → Option String) (qs : List Question) (n i : Nat)
    (h : i < qs.length) :
    (examResults a n qs).getD i default =
      { question := (qs.getD i default).question
        options := (qs.getD i default).options
        userAnswer := recordedAnswer a (n + i)
        correctAnswer := (qs.getD i default).correctAnswer
        isCorrect := recordedAnswer a (n + i) == (qs.getD i default).correctAnswer } := by
  induction qs generalizing n i with
  | nil => simp at h
  | cons q qs ih =>
    cases i with
    | zero => simp [examResults]
    | succ j =>
      have hj : j < qs.length := by simpa using h
      simp only [examResults, List.getD_cons_succ]
      rw [show n + (j + 1) = (n + 1) + j by omega]
      exact ih (n + 1) j hj

theorem examResults_countP (a : Nat → Option String) (qs : List Question) (n : Nat) :
    (examResults a n qs).countP (fun r => r.isCorrect) =
      (List.range qs.length).countP
        (fun i => recordedAnswer a (n + i) == (qs.getD i default).correctAnswer) := by
  induction qs generalizing n with
  | nil => rfl
  | cons q qs ih =>
    simp only [examResults, List.countP_cons, List.length_cons, List.range_succ_eq_map,
      List.countP_map]
    rw [ih (n + 1)]
    have hfun : (fun i => recordedAnswer a (n + 1 + i) == (qs.getD i default).correctAnswer) =
        ((fun i => recordedAnswer a (n + i) ==
          ((q :: qs).getD i default).correctAnswer) ∘ Nat.succ) := by
      funext i
      simp only [Function.comp, List.getD_cons_succ]
      rw [show n + 1 + i = n + (i + 1) by omega]
    rw [hfun]
    simp [Nat.add_zero]

/-- C10 counterexample: the claim says an unanswered index is never correct,
but with a question whose correctAnswer is the empty string the recorded
answer of an unanswered index is the empty string and compares equal, so the
result is marked correct and scores one point. -/
theorem unanswered_counted_correct :
    (handleSubmit [⟨"q", ["w", "x", "y", "z"], ""⟩] (fun _ => none)).score = 1 ∧
    (handleSubmit [⟨"q", ["w", "x", "y", "z"], ""⟩] (fun _ => none)).total = 1 ∧
    ((handleSubmit [⟨"q", ["w", "x", "y", "z"], ""⟩] (fun _ => none)).results.map
      (fun r => r.isCorrect)) = [true] ∧
    ((handleSubmit [⟨"q", ["w", "x", "y", "z"], ""⟩] (fun _ => none)).results.map
      (fun r => r.userAnswer)) = [""] := by
  refine ⟨?_, ?_, ?_, ?_⟩ <;> rfl

/-- C10 amended: submitting produces total = number of questions; score =
number of indices whose recorded answer (empty string when unanswered) equals
that question's correctAnswer; each isCorrect flag holds exactly when the
recorded answer equals correctAnswer; an unanswered index is marked correct
exactly when the question's correctAnswer is itself the empty string (so it is
never correct whenever correctAnswer is nonempty); and score ≤ total. -/
theorem submit_scoring (qs : List Question) (answers : Nat → Option String) :
    (handleSubmit qs answers).total = qs.length ∧
    (handleSubmit qs answers).score =
      (List.range qs.length).countP
        (fun i => recordedAnswer answers i == (qs.getD i default).correctAnswer) ∧
    (handleSubmit qs answers).score ≤ (handleSubmit qs answers).total ∧
    (handleSubmit qs answers).results.length = qs.length ∧
    (∀ i, i < qs.length →
      ((handleSubmit qs answers).results.getD i default).isCorrect =
        (recordedAnswer answers i == (qs.getD i default).correctAnswer)) ∧
    (∀ i, answers i = none → recordedAnswer answers i = "") ∧
    (∀ i, i < qs.length → answers i = none →
      (((handleSubmit qs answers).results.getD i default).isCorrect = true ↔
        (qs.getD i default).correctAnswer = "")) := by
  refine ⟨rfl, ?_, ?_, examResults_length answers 0 qs, ?_, ?_, ?_⟩
  · have h := examResults_countP answers qs 0
    simpa [handleSubmit] using h
  · have h := examResults_countP answers qs 0
    have hle : (List.range qs.length).countP
        (fun i => recordedAnswer answers i ==
          (qs.getD i default).correctAnswer) ≤ qs.length := by
      calc (List.range qs.length).countP _ ≤ (List.range qs.length).length :=
            List.countP_le_length _
        _ = qs.length := List.length_range qs.length
    simp only [handleSubmit] at h ⊢
    simpa using le_trans (le_of_eq (by simpa using h)) hle
  · intro i hi
    have h := examResults_getD answers qs 0 i hi
    simp only [handleSubmit]
    rw [h]
    simp
  · intro i hi
    unfold recordedAnswer
    rw [hi]
  · intro i hi ha
    have h := examResults_getD answers qs 0 i hi
    have hrec : recordedAnswer answers (0 + i) = "" := by
      unfold recordedAnswer
      rw [Nat.zero_add, ha]
    simp only [handleSubmit]
    rw [h]
    show (recordedAnswer answers (0 + i) == (qs.getD i default).correctAnswer) = true ↔ _
    rw [hrec]
    constructor
    · intro hb
      exact (eq_of_beq hb).symm
    · intro hc
      rw [hc]
      rfl

theorem submit_scoring_witness :
    (handleSubmit [⟨"q", ["w", "x", "y", "z"], "A"⟩] (fun _ => none)).score =
      (List.range 1).countP
        (fun i => recordedAnswer (fun _ => none) i ==
          (([⟨"q", ["w", "x", "y", "z"], "A"⟩] : List Question).getD i
            default).correctAnswer) ∧
    (((handleSubmit [⟨"q", ["w", "x", "y", "z"], "A"⟩] (fun _ => none)).results.getD 0
        default).isCorrect = true ↔
      (([⟨"q", ["w", "x", "y", "z"], "A"⟩] : List Question).getD 0
        default).correctAnswer = "") :=
  ⟨(submit_scoring [⟨"q", ["w", "x", "y", "z"], "A"⟩] (fun _ => none)).2.1,
   (submit_scoring [⟨"q", ["w", "x", "y", "z"], "A"⟩] (fun _ => none)).2.2.2.2.2.2 0
     (by decide) rfl⟩

/-- C2 counterexample: a parsed array whose single element violates the
Question-record invariant (empty options, correctAnswer Z) is returned
unchanged in a 200 success response: element shape is not validated before the
response is built. -/
theorem unvalidated_question_returned :
    validQuestionB badQuestion = false ∧
    (structureResponse (some (Json.arr [badQuestion]))).status = 200 ∧
    getField (structureResponse (some (Json.arr [badQuestion]))).body "questions" =
      some (Json.arr [badQuestion]) :=
  ⟨rfl, rfl, rfl⟩

/-- C2 amended: the only validation applied to the structuring model's parsed
output before the 200 response is the array check (Array.isArray); every
parsed array is returned as-is in the questions field, with no per-element
validation of shape, field presence, options length or correctAnswer
membership. -/
theorem array_check_only_validation (qs : List Json) :
    structureResponse (some (Json.arr qs)) =
      ⟨200, Json.obj [("questions", Json.arr qs)]⟩ :=
  rfl

theorem lsw_self_append (p r : List Char) : listStartsWith p (p ++ r) = true := by
  induction p with
  | nil => rfl
  | cons c cs ih => simp [listStartsWith, ih]

theorem lsw_of_append {p q l : List Char} (h : listStartsWith (p ++ q) l = true) :
    listStartsWith p l = true := by
  induction p generalizing l with
  | nil => rfl
  | cons c cs ih =>
    cases l with
    | nil => simp [listStartsWith] at h
    | cons d ds =>
      simp only [List.cons_append, listStartsWith, Bool.and_eq_true] at h ⊢
      exact ⟨h.1, ih h.2⟩

theorem lsw_append_long {p l : List Char} (r : List Char) (h : p.length ≤ l.length) :
    listStartsWith p (l ++ r) = listStartsWith p l := by
  induction p generalizing l with
  | nil => rfl
  | cons a ps ih =>
    cases l with
    | nil => simp at h
    | cons b ls =>
      simp only [List.cons_append, listStartsWith, List.append_eq]
      rw [ih (by simpa using h)]

theorem fence3_eq : "```".toList = [bq, bq, bq] := by decide

theorem pat7_split : "```json".toList = "```".toList ++ "json".toList := by decide

theorem notFenceStart {a : List Char} (r : List Char) (hne : a ≠ [])
    (hf : fenceFree a = true) :
    listStartsWith "```".toList (a ++ '\n' :: r) = false := by
  match a with
  | [] => exact absurd rfl hne
  | [c] =>
    rw [fence3_eq]
    simp +decide [listStartsWith]
  | [c1, c2] =>
    rw [fence3_eq]
    simp +decide [listStartsWith]
  | c1 :: c2 :: c3 :: rest =>
    rw [lsw_append_long ('\n' :: r)
      (by rw [fence3_eq]; simp only [List.length_cons, List.length_nil]; omega)]
    simp only [fenceFree, Bool.and_eq_true, Bool.not_eq_true'] at hf
    exact hf.1

theorem fenceFree_suffix {l : List Char} (hf : fenceFree l = true) :
    ∀ {s : List Char}, s <:+ l → fenceFree s = true := by
  induction l with
  | nil =>
    intro s hs
    rw [List.suffix_nil.mp hs]
    rfl
  | cons c cs ih =>
    intro s hs
    rcases List.suffix_cons_iff.mp hs with rfl | hs
    · exact hf
    · have htail : fenceFree cs = true := by
        simp only [fenceFree, Bool.and_eq_true] at hf
        exact hf.2
      exact ih htail hs

theorem stripJsonFences_id {l : List Char}
    (h : ∀ s, s <:+ l → listStartsWith "```json".toList s = false) :
    stripJsonFences l = l := by
  induction l with
  | nil => simp [stripJsonFences]
  | cons c cs ih =>
    have hfalse : listStartsWith "```json".toList (c :: cs) = false :=
      h _ (List.suffix_refl _)
    rw [stripJsonFences, if_neg (by rw [hfalse]; exact Bool.false_ne_true)]
    rw [ih (fun s hs => h s (hs.trans (List.suffix_cons c cs)))]

theorem stripFence_append {a : List Char} (r : List Char)
    (h : ∀ s, s <:+ a → s ≠ [] → listStartsWith "```".toList (s ++ r) = false) :
    stripFence (a ++ r) = a ++ stripFence r := by
  induction a with
  | nil => simp
  | cons c cs ih =>
    have hfalse : listStartsWith "```".toList ((c :: cs) ++ r) = false :=
      h _ (List.suffix_refl _) (by simp)
    simp only [List.cons_append] at hfalse ⊢
    rw [stripFence, if_neg (by rw [hfalse]; exact Bool.false_ne_true)]
    rw [ih (fun s hs hne => h s (hs.trans (List.suffix_cons c cs)) hne)]

theorem suffix_append_cases {s a b : List Char} (h : s <:+ a ++ b) :
    s <:+ b ∨ ∃ t, t <:+ a ∧ t ≠ [] ∧ s = t ++ b := by
  have hd := List.suffix_iff_eq_drop.mp h
  rw [List.drop_append_eq_append_drop] at hd
  by_cases hk : a.length ≤ (a ++ b).length - s.length
  · left
    rw [List.drop_eq_nil_of_le hk, List.nil_append] at hd
    rw [hd]
    exact List.drop_suffix _ _
  · right
    push_neg at hk
    have hz : (a ++ b).length - s.length - a.length = 0 := by omega
    rw [hz, List.drop_zero] at hd
    refine ⟨a.drop ((a ++ b).length - s.length), List.drop_suffix _ _, ?_, hd⟩
    intro hnil
    have hlen := congrArg List.length hnil
    rw [List.length_drop] at hlen
    simp only [List.length_nil] at hlen
    omega

theorem no_pat7_in_tail {s : List Char} (hs : s <:+ "\n```".toList) :
    listStartsWith "```json".toList s = false := by
  have hm := (List.mem_tails s "\n```".toList).mpr hs
  fin_cases hm <;> decide

theorem no_pat7_wrapped {inner : List Char} (hf : fenceFree inner = true) :
    ∀ s, s <:+ inner ++ "\n```".toList → listStartsWith "```json".toList s = false := by
  intro s hs
  rcases suffix_append_cases hs with hs | ⟨t, ht, hne, rfl⟩
  · exact no_pat7_in_tail hs
  · have he : ("\n```".toList : List Char) = '\n' :: "```".toList := by decide
    rw [he]
    have h3 : listStartsWith "```".toList (t ++ '\n' :: "```".toList) = false :=
      notFenceStart _ hne (fenceFree_suffix hf ht)
    cases hlsw : listStartsWith "```json".toList (t ++ '\n' :: "```".toList) with
    | false => rfl
    | true =>
      exfalso
      rw [pat7_split] at hlsw
      exact absurd (lsw_of_append hlsw) (by rw [h3]; exact Bool.false_ne_true)

theorem stripJsonFences_head (rest : List Char) :
    stripJsonFences ("```json\n".toList ++ rest) = stripJsonFences rest := by
  have he2 : "```json\n".toList ++ rest =
      bq :: bq :: bq :: 'j' :: 's' :: 'o' :: 'n' :: '\n' :: rest := by
    have h : "```json\n".toList = [bq, bq, bq, 'j', 's', 'o', 'n', '\n'] := by decide
    rw [h]
    rfl
  have ht : listStartsWith "```json".toList
      (bq :: bq :: bq :: 'j' :: 's' :: 'o' :: 'n' :: '\n' :: rest) = true := by
    have h := lsw_self_append "```json".toList ('\n' :: rest)
    have h2 : "```json".toList ++ '\n' :: rest =
        bq :: bq :: bq :: 'j' :: 's' :: 'o' :: 'n' :: '\n' :: rest := by
      have h3 : "```json".toList = [bq, bq, bq, 'j', 's', 'o', 'n'] := by decide
      rw [h3]
      rfl
    rwa [h2] at h
  rw [he2, stripJsonFences, if_pos ht]
  rfl

theorem stripJsonFences_wrapped {inner : List Char} (hf : fenceFree inner = true) :
    stripJsonFences (inner ++ "\n```".toList) = inner ++ "\n```".toList :=
  stripJsonFences_id (no_pat7_wrapped hf)

theorem stripFence_tail_only : stripFence "```".toList = [] := by
  simp +decide [stripFence, listStartsWith, dropNl]

theorem stripFence_wrapped {inner : List Char} (hf : fenceFree inner = true) :
    stripFence (inner ++ "\n```".toList) = inner ++ ['\n'] := by
  have he : ("\n```".toList : List Char) = ['\n'] ++ "```".toList := by decide
  rw [he, ← List.append_assoc]
  have hcond : ∀ s, s <:+ inner ++ ['\n'] → s ≠ [] →
      listStartsWith "```".toList (s ++ "```".toList) = false := by
    intro s hs hne
    rcases suffix_append_cases hs with hs | ⟨t, ht, htne, rfl⟩
    · have hm := (List.mem_tails s ['\n']).mpr hs
      fin_cases hm
      · decide
      · exact absurd rfl hne
    · rw [List.append_assoc]
      have h1 : (['\n'] : List Char) ++ "```".toList = '\n' :: "```".toList := rfl
      rw [h1]
      exact notFenceStart _ htne (fenceFree_suffix hf ht)
  rw [stripFence_append "```".toList hcond, stripFence_tail_only, List.append_nil]

theorem jsTrim_append_nl (l : List Char) : jsTrim (l ++ ['\n']) = jsTrim l := by
  unfold jsTrim trimRight
  rw [List.reverse_append]
  simp only [List.reverse_cons, List.reverse_nil, List.nil_append, List.singleton_append]
  rw [List.dropWhile_cons_of_pos (by decide : isJsWs '\n' = true)]

/-- C7 counterexample: the post-processing does not strip only leading and
trailing fence markers.  The input has no leading or trailing fence and no
surrounding whitespace (its trim is itself), yet cleaning removes the interior
fence marker, changing interior content. -/
theorem interior_fence_removed :
    cleanedText "abc```def".toList = "abcdef".toList ∧
    jsTrim "abc```def".toList = "abc```def".toList ∧
    "abcdef".toList ≠ "abc```def".toList := by
  refine ⟨?_, by decide, by decide⟩
  simp +decide [cleanedText, stripJsonFences, stripFence, listStartsWith, dropNl, jsTrim,
    trimRight, isJsWs]

/-- C7 amended: the post-processing removes every occurrence of the fence
markers (```json and ``` each with an optional following newline) anywhere in
the text and then trims whitespace; interior occurrences are removed too.  For
every payload wrapped in ```json-newline ... newline-``` fences whose inner
content contains no triple-backtick run, the cleaned text equals the trimmed
inner content (so parsing it yields the same value as parsing the unwrapped
inner content, JSON parsing being insensitive to surrounding whitespace). -/
theorem fence_stripping_wrapped (inner : List Char) (h : fenceFree inner = true) :
    cleanedText ("```json\n".toList ++ inner ++ "\n```".toList) = jsTrim inner := by
  rw [List.append_assoc]
  unfold cleanedText
  rw [stripJsonFences_head, stripJsonFences_wrapped h, stripFence_wrapped h]
  exact jsTrim_append_nl inner

theorem fence_stripping_wrapped_witness :
    fenceFree "[1, 2]".toList = true ∧
    cleanedText ("```json\n".toList ++ "[1, 2]".toList ++ "\n```".toList) =
      jsTrim "[1, 2]".toList :=
  ⟨by decide, fence_stripping_wrapped "[1, 2]".toList (by decide)⟩

end ExamAutoQuiz
